import Mathlib

/-!
Shallow embedding of the arithmetic-progression-sum halo2 circuit in
`src/src/lib.rs` (`ApSumChip` / `ApSumCircuit`).

Modelling choices:
* The field `F` is an arbitrary commutative ring (the identities proved here
  need no more); witnesses instantiate it with `ZMod 11`.
* halo2's `Value<F>` (`Known`/`Unknown`) is `Option F`; `Value::map` and
  `Value::and_then` are `Option.map` and `Option.bind`.
* halo2's `Expression<F>` is the inductive `Expr`; a gate is a name together
  with its list of constraint polynomials.
* The trace a synthesis run builds inside the single region of
  `ApSumChip::assign` is recorded as three per-row lists (column `advice[0]`
  holds the terms `a_r`, column `advice[1]` the running sums `sum_r`, plus the
  selector column), together with the copy (equality) constraints created by
  `assign_advice_from_instance` and `constrain_instance`.
* The external framework's instance access is modelled from the spec: reading
  an instance slot that does not exist in the supplied public-input vector is
  a fatal `Error`, every other region operation succeeds.
-/

namespace ApSum

/-- halo2 `Value<F>`: a lazily known field element, `Known x` or `Unknown`. -/
abbrev Value (F : Type) : Type := Option F

/-- The fragment of halo2 `Expression<F>` used by `ApSumChip::configure`:
constants, advice queries (column index, rotation), the selector query, and
the ring operations. -/
inductive Expr (F : Type) : Type where
  | const : F → Expr F
  | advice : ℕ → ℤ → Expr F
  | sel : Expr F
  | add : Expr F → Expr F → Expr F
  | neg : Expr F → Expr F
  | mul : Expr F → Expr F → Expr F
  deriving DecidableEq

/-- Rust subtraction on `Expression`s: `a - b` is `Sum(a, Negated(b))`. -/
def Expr.sub {F : Type} (e1 e2 : Expr F) : Expr F := .add e1 (.neg e2)

/-- Evaluate an expression given a valuation `v` of the advice queries
(column, rotation) and the value `s` of the selector at the row at hand. -/
def Expr.eval {F : Type} [CommRing F] (v : ℕ → ℤ → F) (s : F) : Expr F → F
  | .const c => c
  | .advice col rot => v col rot
  | .sel => s
  | .add e1 e2 => e1.eval v s + e2.eval v s
  | .neg e => - (e.eval v s)
  | .mul e1 e2 => (e1.eval v s) * (e2.eval v s)

/-- A named gate: `meta.create_gate` registers a name and the list of
constraint polynomials returned by its closure. -/
structure Gate (F : Type) where
  name : String
  polys : List (Expr F)
  deriving DecidableEq

/-- `F::from_u128`: the compile-time `u128` constant `STEP` (modelled as a
natural number, as a `u128` value it is below `2 ^ 128`) mapped into the
field. -/
def fromU128 (F : Type) [CommRing F] (n : ℕ) : F := (n : F)

/-- The single gate registered by `ApSumChip::configure` (lines 49-61 of
`lib.rs`): advice column 0 holds `a`, advice column 1 holds `sum`, rotation
`0` is the current row and `-1` the previous row, and the two constraints are
`s * (a + prev_sum - sum)` and `s * (a - prev_a - STEP)`. -/
def apSumGate (F : Type) [CommRing F] (STEP : ℕ) : Gate F :=
  ⟨"step and sum",
   [ Expr.mul .sel (Expr.sub (.add (.advice 0 0) (.advice 1 (-1))) (.advice 1 0)),
     Expr.mul .sel (Expr.sub (Expr.sub (.advice 0 0) (.advice 0 (-1)))
       (.const (fromU128 F STEP))) ]⟩

/-- All gates `ApSumChip::configure` registers on the constraint system:
exactly the one call to `meta.create_gate`. -/
def configureGates (F : Type) [CommRing F] (STEP : ℕ) : List (Gate F) :=
  [apSumGate F STEP]

/-- Value of the cell `a_r` as computed by the loop of `ApSumChip::assign`:
row 0 is seeded from the instance, and each later row is
`a_cell.value().and_then(|a| Value::known(*a + F::from_u128(STEP)))`. -/
def aVal {F : Type} [CommRing F] (step : F) (seed : Value F) : ℕ → Value F
  | 0 => seed
  | r + 1 => (aVal step seed r).bind (fun a => some (a + step))

/-- Value of the cell `sum_r` as computed by the loop of `ApSumChip::assign`:
row 0 is seeded from the instance, and each later row is
`sum_cell.value().and_then(|sum| new_a_val.map(|new_a| new_a + sum))`. -/
def sumVal {F : Type} [CommRing F] (step : F) (seed : Value F) : ℕ → Value F
  | 0 => seed
  | r + 1 => (sumVal step seed r).bind
      (fun s => (aVal step seed (r + 1)).map (fun na => na + s))

/-- Number of rows `ApSumChip::assign` populates: row 0 is always assigned,
the loop `for row in 1..COUNT` adds rows `1` to `COUNT - 1`; so `COUNT` rows
when `COUNT ≥ 1` and still one row when `COUNT = 0`. -/
def numRows (count : ℕ) : ℕ := max 1 count

/-- Whether `ApSumChip::assign` enables the selector at row `r`: exactly the
rows visited by the loop `for row in 1..COUNT`. -/
def selOn (count r : ℕ) : Bool := decide (1 ≤ r ∧ r < count)

/-- A reference to an advice cell of the region: `a r` is column `advice[0]`
row `r`, `sum r` is column `advice[1]` row `r`. -/
inductive CellRef : Type where
  | a : ℕ → CellRef
  | sum : ℕ → CellRef
  deriving DecidableEq

/-- The region trace built by `ApSumChip::assign`: per-row values of the two
advice columns and of the selector column. -/
structure ApTrace (F : Type) where
  a : List (Value F)
  sum : List (Value F)
  sel : List Bool
  deriving DecidableEq

/-- The full table `ApSumChip::assign` writes for a given seed (the value
copied from instance slot 0 into row 0). -/
def assignTrace {F : Type} [CommRing F] (step : F) (count : ℕ) (seed : Value F) :
    ApTrace F :=
  ⟨(List.range (numRows count)).map (aVal step seed),
   (List.range (numRows count)).map (sumVal step seed),
   (List.range (numRows count)).map (selOn count)⟩

/-- `ApSumChip::assign` (lines 70-110): fails when instance slot 0 does not
exist; otherwise seeds row 0 from instance slot 0 (recording the two
equality copies made by `assign_advice_from_instance`), runs the loop, and
returns the trace, the copies, and (the reference to) the final `sum_cell`. -/
def assign (F : Type) [CommRing F] (STEP count : ℕ) (inst : List (Value F)) :
    Except Unit (ApTrace F × List (CellRef × ℕ) × CellRef) :=
  match inst with
  | [] => .error ()
  | seed :: _ =>
      .ok (assignTrace (fromU128 F STEP) count seed,
           [(CellRef.a 0, 0), (CellRef.sum 0, 0)],
           CellRef.sum (numRows count - 1))

/-- `ApSumChip::expose_public` (lines 112-119): `constrain_instance` records
one equality copy between the given cell and the given instance slot, failing
when the slot does not exist in the supplied public-input vector. -/
def expose_public (instLen : ℕ) (cell : CellRef) (row : ℕ) :
    Except Unit (List (CellRef × ℕ)) :=
  if row < instLen then .ok [(cell, row)] else .error ()

/-- Everything one run of `ApSumCircuit::synthesize` produces: the region
trace, the copy constraints from the seeding step of `assign`, and the copy
constraints from `expose_public`. -/
structure SynthResult (F : Type) where
  trace : ApTrace F
  seedCopies : List (CellRef × ℕ)
  binderCopies : List (CellRef × ℕ)
  deriving DecidableEq

/-- `ApSumCircuit::synthesize` (lines 140-149): run `assign`, then expose the
returned `sum_cell` at instance row 1; the Rust `?` operator propagates
either failure. -/
def synthesize (F : Type) [CommRing F] (STEP count : ℕ) (inst : List (Value F)) :
    Except Unit (SynthResult F) :=
  match assign F STEP count inst with
  | .error e => .error e
  | .ok (tr, sc, cell) =>
      match expose_public inst.length cell 1 with
      | .error e => .error e
      | .ok bc => .ok ⟨tr, sc, bc⟩

/-- Value held by a referenced cell of the trace (`Unknown` when the row was
never assigned). -/
def ApTrace.cellVal {F : Type} (tr : ApTrace F) : CellRef → Value F
  | .a r => (tr.a[r]?).getD none
  | .sum r => (tr.sum[r]?).getD none

/-- The list of values of an advice column, by column index. -/
def ApTrace.colVals {F : Type} (tr : ApTrace F) (col : ℕ) : List (Value F) :=
  if col = 0 then tr.a else tr.sum

/-- Concrete advice value the constraint checker sees at (column, absolute
row), defaulting to `0` outside the assigned region (as the mock checker pads
unassigned cells). -/
def ApTrace.adv {F : Type} [CommRing F] (tr : ApTrace F) (col : ℕ) (i : ℤ) : F :=
  if 0 ≤ i then (((tr.colVals col)[i.toNat]?).getD none).getD 0 else 0

/-- Whether the selector is enabled at row `r` of the trace. -/
def selAt {F : Type} (tr : ApTrace F) (r : ℕ) : Bool := (tr.sel[r]?).getD false

/-- The gate constraints hold on the trace: every registered constraint
polynomial evaluates to `0` at every row, the selector query evaluating to
`1` on enabled rows and `0` elsewhere. -/
def gateHolds {F : Type} [CommRing F] (STEP : ℕ) (tr : ApTrace F) : Prop :=
  ∀ g ∈ configureGates F STEP, ∀ e ∈ g.polys, ∀ r < tr.sel.length,
    Expr.eval (fun col rot => tr.adv col (r + rot))
      (if selAt tr r then 1 else 0) e = 0

/-- The copy (equality) constraints hold: each recorded copy makes the cell's
value equal to the public instance value at the named slot (which must
exist). -/
def copiesHold {F : Type} (tr : ApTrace F) (copies : List (CellRef × ℕ))
    (instVals : List F) : Prop :=
  ∀ cp ∈ copies, tr.cellVal cp.1 = instVals[cp.2]?

/-- The constraint check the external framework performs on a synthesis
result against concrete public inputs: all gate constraints and all copy
constraints hold. -/
def satisfied {F : Type} [CommRing F] (STEP : ℕ) (res : SynthResult F)
    (instVals : List F) : Prop :=
  gateHolds STEP res.trace ∧
  copiesHold res.trace (res.seedCopies ++ res.binderCopies) instVals

/-- The true arithmetic-progression sum, as the spec writes it:
`count * first_term + step * (count * (count - 1) / 2)`, the division being
exact natural division. -/
def progSum (F : Type) [CommRing F] (STEP count : ℕ) (f : F) : F :=
  (count : F) * f + fromU128 F STEP * ((count * (count - 1) / 2 : ℕ) : F)

/-! Helper lemmas about the assigned cell values. -/

lemma aVal_known {F : Type} [CommRing F] (step f : F) (r : ℕ) :
    aVal step (some f) r = some (f + (r : F) * step) := by
  induction r with
  | zero => simp [aVal]
  | succ n ih =>
      rw [aVal, ih]
      simp only [Option.some_bind]
      congr 1
      push_cast
      ring

lemma sumVal_known {F : Type} [CommRing F] (step f : F) (r : ℕ) :
    sumVal step (some f) r =
      some (((r : F) + 1) * f + (∑ i ∈ Finset.range (r + 1), (i : F)) * step) := by
  induction r with
  | zero => simp [sumVal]
  | succ n ih =>
      rw [sumVal, ih, aVal_known]
      simp only [Option.some_bind, Option.map_some']
      congr 1
      have hs : (∑ i ∈ Finset.range (n + 1 + 1), (i : F)) =
          (∑ i ∈ Finset.range (n + 1), (i : F)) + ((n : F) + 1) := by
        rw [Finset.sum_range_succ]
        push_cast
        ring
      rw [hs]
      push_cast
      ring

lemma aVal_unknown {F : Type} [CommRing F] (step : F) (r : ℕ) :
    aVal step none r = none := by
  induction r with
  | zero => rfl
  | succ n ih => rw [aVal, ih]; rfl

lemma sumVal_unknown {F : Type} [CommRing F] (step : F) (r : ℕ) :
    sumVal step none r = none := by
  induction r with
  | zero => rfl
  | succ n ih => rw [sumVal, ih]; rfl

lemma assignTrace_cellVal_a {F : Type} [CommRing F] (step : F) (count : ℕ)
    (seed : Value F) (r : ℕ) (h : r < numRows count) :
    (assignTrace step count seed).cellVal (.a r) = aVal step seed r := by
  simp [assignTrace, ApTrace.cellVal, List.getElem?_map, List.getElem?_range, h]

lemma assignTrace_cellVal_sum {F : Type} [CommRing F] (step : F) (count : ℕ)
    (seed : Value F) (r : ℕ) (h : r < numRows count) :
    (assignTrace step count seed).cellVal (.sum r) = sumVal step seed r := by
  simp [assignTrace, ApTrace.cellVal, List.getElem?_map, List.getElem?_range, h]

lemma assignTrace_selAt {F : Type} [CommRing F] (step : F) (count : ℕ)
    (seed : Value F) (r : ℕ) (h : r < numRows count) :
    selAt (assignTrace step count seed) r = selOn count r := by
  simp [assignTrace, selAt, List.getElem?_map, List.getElem?_range, h]

lemma assignTrace_sel_length {F : Type} [CommRing F] (step : F) (count : ℕ)
    (seed : Value F) : (assignTrace step count seed).sel.length = numRows count := by
  simp [assignTrace]

/-- Core of C1 and C4: the final `sum` cell of the assigned trace carries the
closed-form progression sum. -/
lemma assignTrace_final_sum {F : Type} [CommRing F] (STEP count : ℕ) (f : F)
    (hc : 1 ≤ count) :
    (assignTrace (fromU128 F STEP) count (some f)).cellVal (CellRef.sum (count - 1)) =
      some (progSum F STEP count f) := by
  have hlt : count - 1 < numRows count := by
    simp only [numRows]
    omega
  rw [assignTrace_cellVal_sum _ _ _ _ hlt, sumVal_known]
  congr 1
  obtain ⟨m, rfl⟩ : ∃ m, count = m + 1 := ⟨count - 1, by omega⟩
  simp only [progSum, Nat.add_sub_cancel]
  have hsum : ((m + 1) * m / 2 : ℕ) = ∑ i ∈ Finset.range (m + 1), i := by
    rw [Finset.sum_range_id, Nat.add_sub_cancel]
  rw [hsum]
  push_cast
  ring

lemma gate_eval_flag_zero {F : Type} [CommRing F] (STEP : ℕ) (v : ℕ → ℤ → F)
    (e : Expr F) (he : e ∈ (apSumGate F STEP).polys) : Expr.eval v 0 e = 0 := by
  simp only [apSumGate, List.mem_cons, List.not_mem_nil, or_false] at he
  rcases he with rfl | rfl <;> simp [Expr.eval]

/-! The claims. -/

/-- C1: for every fixed `step ≥ 0` and `count ≥ 1` and any `first_term`, the
trace produced by the witness assigner satisfies
`sum_{count-1} = count * first_term + step * (count * (count - 1) / 2)`,
computed in the field. -/
theorem c1_final_sum_closed_form {F : Type} [CommRing F] (STEP count : ℕ)
    (f : F) (hc : 1 ≤ count) :
    (assignTrace (fromU128 F STEP) count (some f)).cellVal (CellRef.sum (count - 1)) =
      some (progSum F STEP count f) :=
  assignTrace_final_sum STEP count f hc

/-- Witness for C1 at `F = ZMod 11`, `STEP = 3`, `count = 5`,
`first_term = 2`. -/
theorem c1_witness :
    1 ≤ 5 ∧
    (assignTrace (fromU128 (ZMod 11) 3) 5 (some 2)).cellVal (CellRef.sum (5 - 1)) =
      some (progSum (ZMod 11) 3 5 2) :=
  ⟨by decide, c1_final_sum_closed_form 3 5 2 (by decide)⟩

/-- C2: `configure` registers exactly one named gate with exactly two
constraint polynomials, each of the form `flag * (...)`; on any valuation
their vanishing is equivalent to the spec's
`flag * (sum_cur - a_cur - sum_prev) == 0` and
`flag * (a_cur - a_prev - step) == 0`, and both evaluate to `0` whenever the
flag is unset (`flag = 0`). -/
theorem c2_one_gate_two_flagged_constraints {F : Type} [CommRing F] (STEP : ℕ) :
    ∃ q1 q2 : Expr F,
      configureGates F STEP = [⟨"step and sum", [Expr.mul .sel q1, Expr.mul .sel q2]⟩] ∧
      ∀ v : ℕ → ℤ → F, ∀ s : F,
        (Expr.eval v s (Expr.mul .sel q1) = 0 ↔ s * (v 1 0 - v 0 0 - v 1 (-1)) = 0) ∧
        (Expr.eval v s (Expr.mul .sel q2) = 0 ↔
          s * (v 0 0 - v 0 (-1) - fromU128 F STEP) = 0) ∧
        (s = 0 → Expr.eval v s (Expr.mul .sel q1) = 0 ∧
          Expr.eval v s (Expr.mul .sel q2) = 0) := by
  refine ⟨_, _, rfl, fun v s => ⟨?_, ?_, fun hs => by simp [hs, Expr.eval]⟩⟩
  · have h : Expr.eval v s (Expr.mul .sel
        (Expr.sub (.add (.advice 0 0) (.advice 1 (-1))) (.advice 1 0))) =
        -(s * (v 1 0 - v 0 0 - v 1 (-1))) := by
      simp [Expr.eval, Expr.sub]
      ring
    rw [h, neg_eq_zero]
  · have h : Expr.eval v s (Expr.mul .sel
        (Expr.sub (Expr.sub (.advice 0 0) (.advice 0 (-1)))
          (.const (fromU128 F STEP)))) =
        s * (v 0 0 - v 0 (-1) - fromU128 F STEP) := by
      simp [Expr.eval, Expr.sub]
      ring
    rw [h]

lemma synthesize_nil {F : Type} [CommRing F] (STEP count : ℕ) :
    synthesize F STEP count [] = .error () := rfl

lemma synthesize_one {F : Type} [CommRing F] (STEP count : ℕ) (x : Value F) :
    synthesize F STEP count [x] = .error () := rfl

lemma synthesize_cons2 {F : Type} [CommRing F] (STEP count : ℕ)
    (x y : Value F) (rest : List (Value F)) :
    synthesize F STEP count (x :: y :: rest) =
      .ok ⟨assignTrace (fromU128 F STEP) count x,
           [(CellRef.a 0, 0), (CellRef.sum 0, 0)],
           [(CellRef.sum (numRows count - 1), 1)]⟩ := by
  have hlen : (1 : ℕ) < (x :: y :: rest).length := by simp
  simp only [synthesize, assign, expose_public, if_pos hlen]

lemma numRows_eq_count {count : ℕ} (hc : 1 ≤ count) : numRows count = count := by
  simp only [numRows]
  omega

lemma numRows_pos (count : ℕ) : 0 < numRows count := by
  simp only [numRows]
  omega

/-- C3: `assign` seeds row 0 by copying instance slot 0 into both the `a` and
`sum` cells with the selector unset there, then for each row `r` from 1 to
`count - 1` enables the selector and assigns
`a_r = a_{r-1} + step` and `sum_r = a_r + sum_{r-1}` from the previously
assigned cells' (lazy) values, and returns the final row's `sum` cell. -/
theorem c3_assign_seeds_then_iterates {F : Type} [CommRing F] (STEP count : ℕ)
    (inst : List (Value F)) (tr : ApTrace F) (sc : List (CellRef × ℕ))
    (ret : CellRef) (hok : assign F STEP count inst = .ok (tr, sc, ret))
    (hc : 1 ≤ count) :
    tr.cellVal (CellRef.a 0) = (inst[0]?).getD none ∧
    tr.cellVal (CellRef.sum 0) = (inst[0]?).getD none ∧
    sc = [(CellRef.a 0, 0), (CellRef.sum 0, 0)] ∧
    selAt tr 0 = false ∧
    (∀ r < count, 1 ≤ r →
      selAt tr r = true ∧
      tr.cellVal (CellRef.a r) =
        (tr.cellVal (CellRef.a (r - 1))).bind (fun x => some (x + fromU128 F STEP)) ∧
      tr.cellVal (CellRef.sum r) =
        (tr.cellVal (CellRef.sum (r - 1))).bind
          (fun s => (tr.cellVal (CellRef.a r)).map (fun na => na + s))) ∧
    ret = CellRef.sum (count - 1) := by
  cases inst with
  | nil => simp [assign] at hok
  | cons seed rest =>
      simp only [assign, Except.ok.injEq, Prod.mk.injEq] at hok
      obtain ⟨htr, hsc, hret⟩ := hok
      subst htr hsc hret
      refine ⟨?_, ?_, rfl, ?_, ?_, ?_⟩
      · rw [assignTrace_cellVal_a _ _ _ _ (numRows_pos count)]
        simp [aVal]
      · rw [assignTrace_cellVal_sum _ _ _ _ (numRows_pos count)]
        simp [sumVal]
      · rw [assignTrace_selAt _ _ _ _ (numRows_pos count)]
        simp [selOn]
      · intro r hr h1r
        have hrn : r < numRows count := by
          simp only [numRows]
          omega
        have hrn' : r - 1 < numRows count := by
          simp only [numRows]
          omega
        obtain ⟨m, rfl⟩ : ∃ m, r = m + 1 := ⟨r - 1, by omega⟩
        have hmn : m < numRows count := by
          simp only [numRows]
          omega
        refine ⟨?_, ?_, ?_⟩
        · rw [assignTrace_selAt _ _ _ _ hrn]
          simp [selOn, hr]
        · rw [assignTrace_cellVal_a _ _ _ _ hrn, Nat.add_sub_cancel,
            assignTrace_cellVal_a _ _ _ _ hmn]
          rfl
        · rw [assignTrace_cellVal_sum _ _ _ _ hrn, Nat.add_sub_cancel,
            assignTrace_cellVal_sum _ _ _ _ hmn,
            assignTrace_cellVal_a _ _ _ _ hrn]
          rfl
      · rw [numRows_eq_count hc]

/-- Witness for C3 at `F = ZMod 11`, `STEP = 3`, `count = 4`, public inputs
`[2, 9]`. -/
theorem c3_witness :
    assign (ZMod 11) 3 4 [some 2, some 9] =
      .ok (assignTrace (fromU128 (ZMod 11) 3) 4 (some 2),
           [(CellRef.a 0, 0), (CellRef.sum 0, 0)], CellRef.sum (numRows 4 - 1)) ∧
    1 ≤ 4 ∧
    ((assignTrace (fromU128 (ZMod 11) 3) 4 (some 2)).cellVal (CellRef.a 0) =
        (([some 2, some 9] : List (Value (ZMod 11)))[0]?).getD none ∧
      (assignTrace (fromU128 (ZMod 11) 3) 4 (some 2)).cellVal (CellRef.sum 0) =
        (([some 2, some 9] : List (Value (ZMod 11)))[0]?).getD none ∧
      ([(CellRef.a 0, 0), (CellRef.sum 0, 0)] : List (CellRef × ℕ)) =
        [(CellRef.a 0, 0), (CellRef.sum 0, 0)] ∧
      selAt (assignTrace (fromU128 (ZMod 11) 3) 4 (some 2)) 0 = false ∧
      (∀ r < 4, 1 ≤ r →
        selAt (assignTrace (fromU128 (ZMod 11) 3) 4 (some 2)) r = true ∧
        (assignTrace (fromU128 (ZMod 11) 3) 4 (some 2)).cellVal (CellRef.a r) =
          ((assignTrace (fromU128 (ZMod 11) 3) 4 (some 2)).cellVal
            (CellRef.a (r - 1))).bind (fun x => some (x + fromU128 (ZMod 11) 3)) ∧
        (assignTrace (fromU128 (ZMod 11) 3) 4 (some 2)).cellVal (CellRef.sum r) =
          ((assignTrace (fromU128 (ZMod 11) 3) 4 (some 2)).cellVal
            (CellRef.sum (r - 1))).bind
            (fun s => ((assignTrace (fromU128 (ZMod 11) 3) 4 (some 2)).cellVal
              (CellRef.a r)).map (fun na => na + s))) ∧
      CellRef.sum (numRows 4 - 1) = CellRef.sum (4 - 1)) :=
  ⟨rfl, by decide,
   c3_assign_seeds_then_iterates 3 4 [some 2, some 9]
     (assignTrace (fromU128 (ZMod 11) 3) 4 (some 2))
     [(CellRef.a 0, 0), (CellRef.sum 0, 0)] (CellRef.sum (numRows 4 - 1))
     rfl (by decide)⟩

/-- C4: for any step, any count ≥ 1 (the spec's data model fixes
`count ≥ 1`) and any first term, if the claimed total sum in instance slot 1
differs from the true progression sum in the field, then the trace produced
by synthesis violates at least one constraint. -/
theorem c4_wrong_total_sum_unsatisfied {F : Type} [CommRing F]
    (STEP count : ℕ) (f c : F) (hc : 1 ≤ count)
    (hne : c ≠ progSum F STEP count f) (res : SynthResult F)
    (hok : synthesize F STEP count [some f, some c] = .ok res) :
    ¬ satisfied STEP res [f, c] := by
  rw [synthesize_cons2] at hok
  simp only [Except.ok.injEq] at hok
  subst hok
  rintro ⟨-, hcp⟩
  have hbind := hcp (CellRef.sum (numRows count - 1), 1) (by simp)
  rw [numRows_eq_count hc] at hbind
  rw [assignTrace_final_sum STEP count f hc] at hbind
  simp only [List.getElem?_cons_succ, List.getElem?_cons_zero,
    Option.some.injEq] at hbind
  exact hne hbind.symm

/-- Witness for C4 at `F = ZMod 11`, `STEP = 1`, `count = 5`,
`first_term = 1`, wrong claimed sum `5` (the true sum is `15 = 4` in
`ZMod 11`). -/
theorem c4_witness :
    1 ≤ 5 ∧ (5 : ZMod 11) ≠ progSum (ZMod 11) 1 5 1 ∧
    synthesize (ZMod 11) 1 5 [some 1, some 5] =
      .ok ⟨assignTrace (fromU128 (ZMod 11) 1) 5 (some 1),
           [(CellRef.a 0, 0), (CellRef.sum 0, 0)],
           [(CellRef.sum (numRows 5 - 1), 1)]⟩ ∧
    ¬ satisfied 1
      ⟨assignTrace (fromU128 (ZMod 11) 1) 5 (some 1),
       [(CellRef.a 0, 0), (CellRef.sum 0, 0)],
       [(CellRef.sum (numRows 5 - 1), 1)]⟩ [1, 5] :=
  ⟨by decide, by decide, rfl,
   c4_wrong_total_sum_unsatisfied 1 5 1 5 (by decide) (by decide) _ rfl⟩

/-- C5: synthesis establishes exactly one copy constraint through
`expose_public`, between the final `sum` cell (row `count - 1` of the sum
column) and instance slot 1; the only copies tying instance slot 0 are the
two made by the row-0 seeding assignments of `assign`. -/
theorem c5_one_binder_copy {F : Type} [CommRing F] (STEP count : ℕ)
    (inst : List (Value F)) (res : SynthResult F)
    (hok : synthesize F STEP count inst = .ok res) (hc : 1 ≤ count) :
    res.binderCopies = [(CellRef.sum (count - 1), 1)] ∧
    res.seedCopies = [(CellRef.a 0, 0), (CellRef.sum 0, 0)] := by
  match inst with
  | [] => rw [synthesize_nil] at hok; exact absurd hok (by simp)
  | [x] => rw [synthesize_one] at hok; exact absurd hok (by simp)
  | x :: y :: rest =>
      rw [synthesize_cons2] at hok
      simp only [Except.ok.injEq] at hok
      subst hok
      exact ⟨by rw [numRows_eq_count hc], rfl⟩

/-- Witness for C5 at `F = ZMod 11`, `STEP = 2`, `count = 3`, public inputs
`[0, 6]`. -/
theorem c5_witness :
    synthesize (ZMod 11) 2 3 [some 0, some 6] =
      .ok ⟨assignTrace (fromU128 (ZMod 11) 2) 3 (some 0),
           [(CellRef.a 0, 0), (CellRef.sum 0, 0)],
           [(CellRef.sum (numRows 3 - 1), 1)]⟩ ∧
    1 ≤ 3 ∧
    (⟨assignTrace (fromU128 (ZMod 11) 2) 3 (some 0),
      [(CellRef.a 0, 0), (CellRef.sum 0, 0)],
      [(CellRef.sum (numRows 3 - 1), 1)]⟩ : SynthResult (ZMod 11)).binderCopies =
        [(CellRef.sum (3 - 1), 1)] ∧
    (⟨assignTrace (fromU128 (ZMod 11) 2) 3 (some 0),
      [(CellRef.a 0, 0), (CellRef.sum 0, 0)],
      [(CellRef.sum (numRows 3 - 1), 1)]⟩ : SynthResult (ZMod 11)).seedCopies =
        [(CellRef.a 0, 0), (CellRef.sum 0, 0)] :=
  ⟨rfl, by decide, c5_one_binder_copy 2 3 [some 0, some 6] _ rfl (by decide)⟩

/-- C6: in every trace produced by synthesis the selector is unset at row 0
and set at every row `r` with `1 ≤ r < count`; consequently both gate
constraints evaluate to `0` at row 0 whatever the advice values there. -/
theorem c6_selector_shape_row0_vacuous {F : Type} [CommRing F] (STEP count : ℕ)
    (inst : List (Value F)) (res : SynthResult F)
    (hok : synthesize F STEP count inst = .ok res) :
    selAt res.trace 0 = false ∧
    (∀ r < count, 1 ≤ r → selAt res.trace r = true) ∧
    ∀ v : ℕ → ℤ → F, ∀ g ∈ configureGates F STEP, ∀ e ∈ g.polys,
      Expr.eval v (if selAt res.trace 0 then 1 else 0) e = 0 := by
  match inst with
  | [] => rw [synthesize_nil] at hok; exact absurd hok (by simp)
  | [x] => rw [synthesize_one] at hok; exact absurd hok (by simp)
  | seed :: y :: rest =>
      rw [synthesize_cons2] at hok
      simp only [Except.ok.injEq] at hok
      subst hok
      have hsel0 : selAt (assignTrace (fromU128 F STEP) count seed) 0 = false := by
        rw [assignTrace_selAt _ _ _ _ (numRows_pos count)]
        simp [selOn]
      refine ⟨hsel0, ?_, ?_⟩
      · intro r hr h1r
        have hrn : r < numRows count := by
          simp only [numRows]
          omega
        rw [assignTrace_selAt _ _ _ _ hrn]
        simp [selOn, hr, h1r]
      · intro v g hg e he
        simp only [configureGates, List.mem_singleton] at hg
        subst hg
        rw [hsel0, if_neg Bool.false_ne_true]
        exact gate_eval_flag_zero STEP v e he

/-- Witness for C6 at `F = ZMod 11`, `STEP = 2`, `count = 3`, public inputs
`[0, 6]`. -/
theorem c6_witness :
    synthesize (ZMod 11) 2 3 [some 0, some 6] =
      .ok ⟨assignTrace (fromU128 (ZMod 11) 2) 3 (some 0),
           [(CellRef.a 0, 0), (CellRef.sum 0, 0)],
           [(CellRef.sum (numRows 3 - 1), 1)]⟩ ∧
    (selAt (assignTrace (fromU128 (ZMod 11) 2) 3 (some 0)) 0 = false ∧
      (∀ r < 3, 1 ≤ r →
        selAt (assignTrace (fromU128 (ZMod 11) 2) 3 (some 0)) r = true) ∧
      ∀ v : ℕ → ℤ → (ZMod 11), ∀ g ∈ configureGates (ZMod 11) 2, ∀ e ∈ g.polys,
        Expr.eval v
          (if selAt (assignTrace (fromU128 (ZMod 11) 2) 3 (some 0)) 0
            then 1 else 0) e = 0) :=
  ⟨rfl, c6_selector_shape_row0_vacuous 2 3 [some 0, some 6] _ rfl⟩

/-- C7 counterexample: a public-input vector of length 3 — a length different
from 2 — on which synthesis nevertheless succeeds (slots beyond the first two
are never accessed), refuting the claim that any length ≠ 2 is rejected. -/
theorem c7_counterexample :
    (([some 1, some 2, some 0] : List (Value (ZMod 11))).length ≠ 2) ∧
    synthesize (ZMod 11) 4 3 [some 1, some 2, some 0] ≠ .error () := by
  refine ⟨by decide, ?_⟩
  rw [synthesize_cons2]
  simp

/-- C7 (amended): synthesis fails with the fatal construction-time error
exactly when the supplied public-input vector has fewer than 2 elements;
in particular any vector with fewer than 2 elements is rejected, while
longer vectors are accepted. -/
theorem c7_amended_fails_iff_short {F : Type} [CommRing F] (STEP count : ℕ)
    (inst : List (Value F)) :
    synthesize F STEP count inst = .error () ↔ inst.length < 2 := by
  match inst with
  | [] => simp [synthesize_nil]
  | [x] => simp [synthesize_one]
  | x :: y :: rest =>
      rw [synthesize_cons2]
      simp only [List.length_cons]
      constructor
      · intro h
        exact absurd h (by simp)
      · omega

/-- C8: cell values are lazy `Known`/`Unknown` computations: when instance
slot 0 reads as `Unknown` (a witness-free synthesis pass), every derived
`a_r` and `sum_r` propagates `Unknown` through the additions, and the
assignment pass still completes successfully. -/
theorem c8_unknown_propagates {F : Type} [CommRing F] (STEP count : ℕ)
    (inst : List (Value F)) (h0 : inst[0]? = some none) (h2 : 2 ≤ inst.length) :
    synthesize F STEP count inst =
      .ok ⟨⟨List.replicate (numRows count) none,
            List.replicate (numRows count) none,
            (List.range (numRows count)).map (selOn count)⟩,
           [(CellRef.a 0, 0), (CellRef.sum 0, 0)],
           [(CellRef.sum (numRows count - 1), 1)]⟩ := by
  have key : ∀ g : ℕ → Value F, (∀ r, g r = none) →
      (List.range (numRows count)).map g = List.replicate (numRows count) none := by
    intro g hg
    refine List.eq_replicate_iff.2 ⟨by simp, ?_⟩
    intro b hb
    simp only [List.mem_map] at hb
    obtain ⟨r, -, rfl⟩ := hb
    exact hg r
  match inst with
  | [] => simp at h0
  | [x] => simp at h2
  | x :: y :: rest =>
      simp only [List.getElem?_cons_zero, Option.some.injEq] at h0
      subst h0
      rw [synthesize_cons2]
      simp only [Except.ok.injEq, SynthResult.mk.injEq, and_true]
      simp only [assignTrace, ApTrace.mk.injEq]
      exact ⟨key _ (aVal_unknown _), key _ (sumVal_unknown _), trivial⟩

/-- Witness for C8 at `F = ZMod 11`, `STEP = 4`, `count = 3`, a dry pass with
both instance slots present but `Unknown`. -/
theorem c8_witness :
    (([none, none] : List (Value (ZMod 11)))[0]? = some none) ∧
    2 ≤ ([none, none] : List (Value (ZMod 11))).length ∧
    synthesize (ZMod 11) 4 3 [none, none] =
      .ok ⟨⟨List.replicate (numRows 3) none, List.replicate (numRows 3) none,
            (List.range (numRows 3)).map (selOn 3)⟩,
           [(CellRef.a 0, 0), (CellRef.sum 0, 0)],
           [(CellRef.sum (numRows 3 - 1), 1)]⟩ :=
  ⟨rfl, by decide, c8_unknown_propagates 4 3 [none, none] rfl (by decide)⟩

/-- C9: synthesis is deterministic: two runs with identical step, count and
identical public-input vectors yield identical results — the same cell
values at the same positions, the same selector settings and the same
copies. -/
theorem c9_synthesis_deterministic {F : Type} [CommRing F] (STEP count : ℕ)
    (inst : List (Value F)) (r1 r2 : SynthResult F)
    (h1 : synthesize F STEP count inst = .ok r1)
    (h2 : synthesize F STEP count inst = .ok r2) : r1 = r2 := by
  rw [h1] at h2
  exact Except.ok.inj h2

/-- Witness for C9 at `F = ZMod 11`, `STEP = 1`, `count = 5`, public inputs
`[1, 4]`. -/
theorem c9_witness :
    synthesize (ZMod 11) 1 5 [some 1, some 4] =
      .ok ⟨assignTrace (fromU128 (ZMod 11) 1) 5 (some 1),
           [(CellRef.a 0, 0), (CellRef.sum 0, 0)],
           [(CellRef.sum (numRows 5 - 1), 1)]⟩ ∧
    (⟨assignTrace (fromU128 (ZMod 11) 1) 5 (some 1),
      [(CellRef.a 0, 0), (CellRef.sum 0, 0)],
      [(CellRef.sum (numRows 5 - 1), 1)]⟩ : SynthResult (ZMod 11)) =
      ⟨assignTrace (fromU128 (ZMod 11) 1) 5 (some 1),
       [(CellRef.a 0, 0), (CellRef.sum 0, 0)],
       [(CellRef.sum (numRows 5 - 1), 1)]⟩ :=
  ⟨rfl, c9_synthesis_deterministic 1 5 [some 1, some 4] _ _ rfl rfl⟩

lemma assignTrace_zero_eq_one {F : Type} [CommRing F] (step : F)
    (seed : Value F) : assignTrace step 0 seed = assignTrace step 1 seed := rfl

/-- C10: the code never checks the spec's `count ≥ 1` precondition: with
`COUNT = 0` the loop runs zero times but row 0 is still seeded from instance
slot 0 and its `sum` cell is bound to instance slot 1, so the `COUNT = 0`
synthesis coincides with the `COUNT = 1` synthesis on every input, and its
produced constraints are satisfied exactly when
`first_term = claimed_total_sum`. -/
theorem c10_count_zero_is_count_one {F : Type} [CommRing F] (STEP : ℕ)
    (f c : F) (inst : List (Value F)) :
    synthesize F STEP 0 inst = synthesize F STEP 1 inst ∧
    (satisfied STEP
        ⟨assignTrace (fromU128 F STEP) 0 (some f),
         [(CellRef.a 0, 0), (CellRef.sum 0, 0)],
         [(CellRef.sum (numRows 0 - 1), 1)]⟩ [f, c] ↔ f = c) := by
  constructor
  · match inst with
    | [] => rfl
    | [x] => rw [synthesize_one, synthesize_one]
    | x :: y :: rest =>
        rw [synthesize_cons2, synthesize_cons2, assignTrace_zero_eq_one]
        rfl
  · constructor
    · rintro ⟨-, hcp⟩
      have h := hcp (CellRef.sum (numRows 0 - 1), 1) (by simp)
      have h0 : (assignTrace (fromU128 F STEP) 0 (some f)).cellVal
          (CellRef.sum (numRows 0 - 1)) = some f := by
        rw [show numRows 0 - 1 = 0 from rfl,
          assignTrace_cellVal_sum _ _ _ _ (numRows_pos 0)]
        simp [sumVal]
      rw [h0] at h
      simp only [List.getElem?_cons_succ, List.getElem?_cons_zero,
        Option.some.injEq] at h
      exact h
    · intro heq
      subst heq
      constructor
      · intro g hg e he r hr
        rw [assignTrace_sel_length] at hr
        have hr0 : r = 0 := by
          simp only [numRows] at hr
          omega
        subst hr0
        have hsel : selAt (assignTrace (fromU128 F STEP) 0 (some f)) 0 = false := by
          rw [assignTrace_selAt _ _ _ _ (numRows_pos 0)]
          rfl
        rw [hsel, if_neg Bool.false_ne_true]
        simp only [configureGates, List.mem_singleton] at hg
        subst hg
        exact gate_eval_flag_zero STEP _ e he
      · intro cp hcp
        simp only [List.mem_append, List.mem_cons, List.not_mem_nil,
          or_false, List.mem_singleton] at hcp
        rcases hcp with (rfl | rfl) | rfl
        · rw [show ((CellRef.a 0, 0) : CellRef × ℕ).1 = CellRef.a 0 from rfl,
            assignTrace_cellVal_a _ _ _ _ (numRows_pos 0)]
          simp [aVal]
        · rw [show ((CellRef.sum 0, 0) : CellRef × ℕ).1 = CellRef.sum 0 from rfl,
            assignTrace_cellVal_sum _ _ _ _ (numRows_pos 0)]
          simp [sumVal]
        · rw [show ((CellRef.sum (numRows 0 - 1), 1) : CellRef × ℕ).1 =
              CellRef.sum 0 from rfl,
            assignTrace_cellVal_sum _ _ _ _ (numRows_pos 0)]
          simp [sumVal]

end ApSum
